import Mathlib

/-!
# CAPITOLWATCH core — shallow embedding and verification

This file embeds, in Lean 4, the numeric core of the CAPITOLWATCH
repository (value parsing, portfolio aggregation, diversification
metrics, risk classification, product-embedding generation dispatch,
SOM cluster-id assignment and a spec-modelled SOM training loop) and
proves or refutes the frozen specification claims about it.

Machine floats are modelled by exact rationals (`ℚ`): every numeric
literal appearing in the claims is decimal, and the source performs
only field arithmetic on the values concerned, so all statements are
at decimal granularity.  Python strings are modelled by Lean `String`
(ASCII fragment: `str.lower`/`str.strip` agree with `Char.toLower` /
`String.trim` on the inputs concerned).
-/

/-! ## Python string primitives -/

/-- Python's `str.strip()` whitespace class (ASCII). -/
def isWS (c : Char) : Bool :=
  c = ' ' || c = '\t' || c = '\n' || c = '\r' || c = '\x0b' || c = '\x0c'

/-- Python `str.lower()` (ASCII fragment), on the character list. -/
def lowerL (l : List Char) : List Char := l.map Char.toLower

/-- Python `str.strip()` (ASCII fragment), on the character list. -/
def stripL (l : List Char) : List Char :=
  ((l.dropWhile isWS).reverse.dropWhile isWS).reverse

/-- Python `str.lower()` on `String`. -/
def pyLower (s : String) : String := ⟨lowerL s.data⟩

/-- Boolean test that `p` is a prefix of `l` (Python-style contiguous match). -/
def isPrefB : List Char → List Char → Bool
  | [], _ => true
  | _ :: _, [] => false
  | a :: as, b :: bs => a = b && isPrefB as bs

/-- Boolean test that `needle` occurs contiguously in `hay`:
Python's `needle in hay` for strings (the empty needle matches). -/
def containsB (needle : List Char) : List Char → Bool
  | [] => isPrefB needle []
  | c :: rest => isPrefB needle (c :: rest) || containsB needle rest

/-- Character class `[\d,]` of the value-extraction regexes. -/
def isNumC (c : Char) : Bool := c.isDigit || c = ','

/-- Accumulator pass splitting a char list into the maximal runs of
`[\d,]` characters, in order. -/
def runsAux : List Char → List Char → List (List Char)
  | [], acc => if acc = [] then [] else [acc.reverse]
  | c :: rest, acc =>
    if isNumC c then runsAux rest (c :: acc)
    else if acc = [] then runsAux rest []
    else acc.reverse :: runsAux rest []

/-- `re.findall(r"\$?([\d,]+)", s)` and `re.findall(r"[\d,]+", s)` both
return exactly the maximal runs of digit-or-comma characters of `s`, in
order (the optional `\$?` consumes a dollar sign but is outside the
capture group and `$` is not in the class, so it cannot merge or split
runs). -/
def digitRuns (l : List Char) : List (List Char) := runsAux l []

/-- Decimal value of a digit list (most significant first). -/
def digitsToNat (l : List Char) : ℕ :=
  l.foldl (fun acc c => 10 * acc + (c.toNat - 48)) 0

/-- Python `float(run.replace(",", ""))` for a `[\d,]+` run: drop the
commas; an all-comma run raises `ValueError` (here `none`), otherwise
the run is a plain digit string and converts exactly. -/
def runToFloat (r : List Char) : Option ℚ :=
  let d := r.filter (fun c => c ≠ ',')
  if d = [] then none else some ((digitsToNat d : ℕ) : ℚ)

/-- Unsigned decimal literal `digits[.digits]` (at least one digit),
as accepted by Python `float`. -/
def parseUnsignedDec (l : List Char) : Option ℚ :=
  let ip := l.takeWhile Char.isDigit
  match l.dropWhile Char.isDigit with
  | [] => if ip = [] then none else some ((digitsToNat ip : ℕ) : ℚ)
  | '.' :: frac =>
    if frac.all Char.isDigit ∧ (ip ≠ [] ∨ frac ≠ []) then
      some ((digitsToNat ip : ℕ) + ((digitsToNat frac : ℕ) : ℚ) / (10 : ℚ) ^ frac.length)
    else none
  | _ => none

/-- Exponent part after `e`: optional sign then a nonempty digit string,
returned as an integer. -/
def parseExp (l : List Char) : Option ℤ :=
  let (sgn, d) : ℤ × List Char :=
    match l with
    | '+' :: t => (1, t)
    | '-' :: t => (-1, t)
    | t => (1, t)
  if d ≠ [] ∧ d.all Char.isDigit then some (sgn * (digitsToNat d : ℤ)) else none

/-- Python `float(s)` on an already-stripped, already-lowercased string:
optional sign, decimal mantissa, optional `e`-exponent.  (`inf`, `nan`
and underscore digit separators are accepted by CPython but have no
finite rational denotation / do not occur in disclosure values; they are
outside this model and map to `none`.) -/
def pyFloat (l : List Char) : Option ℚ :=
  let (sgn, l₁) : ℚ × List Char :=
    match l with
    | '+' :: t => (1, t)
    | '-' :: t => (-1, t)
    | t => (1, t)
  let mant := l₁.takeWhile (fun c => c ≠ 'e')
  match l₁.dropWhile (fun c => c ≠ 'e') with
  | [] => (parseUnsignedDec mant).map (fun m => sgn * m)
  | 'e' :: etail =>
    match parseUnsignedDec mant, parseExp etail with
    | some m, some e => some (sgn * m * (10 : ℚ) ^ e)
    | _, _ => none
  | _ => none

/-! ## Value Parser (`portfolio_embeddings_generator.parse_asset_value`) -/

/-- The cleaned string of `parse_asset_value`:
`str(value_str).strip().lower()`, as a character list. -/
def cleanOf (value_str : String) : List Char := lowerL (stripL value_str.data)

/-- The null-marker check of `parse_asset_value`:
`clean_string in {"none", "null", "n/a", ""}`. -/
def isNullMarker (clean : List Char) : Bool :=
  clean = "none".data || clean = "null".data || clean = "n/a".data || clean = []

/-- Shallow embedding of `parse_asset_value`
(`src/capitolwatch/analysis/portfolio_embeddings_generator.py:24-78`).
Converts a textual asset value to a numeric estimate, `-1` when
unresolved.  The range branch extracts numbers from the *original*
string, the single-dollar branch from the original string with dollar
signs removed, the final branch converts the cleaned string with commas
removed; each fallible branch falls through exactly as in the source. -/
def parse_asset_value (value_str : String) : ℚ :=
  if value_str.data = [] then -1 else
  let clean := cleanOf value_str
  if isNullMarker clean then -1 else
  if containsB "none (or less than $1,001)".data clean then 500 else
  if containsB "over $1,000,000".data clean then 1500000 else
  if containsB "unascertainable".data clean then 50000 else
  let rangeResult : Option ℚ :=
    if containsB " - ".data clean && containsB "$".data clean then
      match digitRuns value_str.data with
      | a :: b :: _ =>
        match runToFloat a, runToFloat b with
        | some lo, some hi => some ((lo + hi) / 2)
        | _, _ => some 50000
      | _ => none
    else none
  match rangeResult with
  | some r => r
  | none =>
    let dollarResult : Option ℚ :=
      if containsB "$".data clean then
        match digitRuns (value_str.data.filter (fun c => c ≠ '$')) with
        | a :: _ => some ((runToFloat a).getD 50000)
        | [] => none
      else none
    match dollarResult with
    | some r => r
    | none =>
      match pyFloat (clean.filter (fun c => c ≠ ',')) with
      | some q => q
      | none => -1

/-! ## Weighted Portfolio Aggregator
(`portfolio_embeddings_generator.has_child_assets` /
`create_portfolio_embedding`) -/

/-- One row returned by `get_politician_assets_simple`: the asset's
`product_id` (the code passes it through `str(...)`, so it is kept here
as the string form) and the raw textual `value`. -/
structure AssetRow where
  product_id : String
  value : String
deriving DecidableEq

/-- Shallow embedding of `has_child_assets`
(`portfolio_embeddings_generator.py:81-104`): the product's id string is
lowercased and compared for substring overlap (in either direction,
excluding exact equality) against every other asset's id string. -/
def has_child_assets (product_id : String) (all_assets : List AssetRow) : Bool :=
  let parent_name := lowerL product_id.data
  all_assets.any fun asset =>
    let child_product_id := lowerL asset.product_id.data
    decide (parent_name ≠ child_product_id) &&
      (containsB parent_name child_product_id || containsB child_product_id parent_name)

/-- The first loop of `create_portfolio_embedding`
(`portfolio_embeddings_generator.py:147-163`), with the full raw asset
list `all` in scope for the parent check: parse each value; an
unresolved (`-1`) value is dropped when `has_child_assets` fires and
otherwise replaced by the fixed default `25000`; only strictly positive
values are kept. -/
def validAssetsAux (all : List AssetRow) : List AssetRow → List (String × ℚ)
  | [] => []
  | a :: rest =>
    let value := parse_asset_value a.value
    if value = -1 then
      if has_child_assets a.product_id all then validAssetsAux all rest
      else (a.product_id, (25000 : ℚ)) :: validAssetsAux all rest
    else if value > 0 then (a.product_id, value) :: validAssetsAux all rest
    else validAssetsAux all rest

/-- The `valid_assets` list computed by `create_portfolio_embedding`. -/
def validAssets (raw_assets : List AssetRow) : List (String × ℚ) :=
  validAssetsAux raw_assets raw_assets

/-- Embedding vectors of a fixed dimension `n` (the dimension is fixed
per method; machine floats are modelled by `ℚ`, so the `np.nan_to_num`
cleaning step is the identity here). -/
abbrev Vec (n : ℕ) := Fin n → ℚ

/-- `np.all(clean_embedding == 0)`. -/
def isZeroVec {n : ℕ} (v : Vec n) : Bool := decide (∀ k, v k = 0)

/-- The second loop of `create_portfolio_embedding`
(`portfolio_embeddings_generator.py:168-188`): look each valid asset's
product up in the embedding table, skipping missing and all-zero
embeddings, and keep (embedding, value) pairs. -/
def survivors {n : ℕ} (emb : String → Option (Vec n)) :
    List (String × ℚ) → List (Vec n × ℚ)
  | [] => []
  | (pid, value) :: rest =>
    match emb pid with
    | none => survivors emb rest
    | some e =>
      if isZeroVec e then survivors emb rest else (e, value) :: survivors emb rest

/-- `total_portfolio_value`: the sum of the surviving asset values. -/
def totalValue {n : ℕ} (surv : List (Vec n × ℚ)) : ℚ := (surv.map Prod.snd).sum

/-- `normalized_weights = np.array(asset_weights) / sum(asset_weights)`. -/
def normWeights {n : ℕ} (surv : List (Vec n × ℚ)) : List ℚ :=
  surv.map fun p => p.2 / totalValue surv

/-- `np.average(stacked_vectors, axis=0, weights=normalized_weights)`:
coordinatewise `Σ wᵢ·vᵢ / Σ wᵢ` with the normalized weights. -/
def portfolioVector {n : ℕ} (surv : List (Vec n × ℚ)) : Vec n := fun k =>
  ((surv.map fun p => p.2 / totalValue surv * p.1 k).sum) / (normWeights surv).sum

/-- The metadata dictionary of a successful `create_portfolio_embedding`. -/
structure AggMeta where
  method : String
  asset_count : ℕ
  total_value : ℚ
  base_method : String
  aggregation : String
deriving DecidableEq

/-- The return value of `create_portfolio_embedding`: either
`(vector, metadata)` or `(None, {"error": msg})`. -/
inductive AggOutcome (n : ℕ)
  | ok (vec : Vec n) (meta : AggMeta)
  | err (msg : String)

/-- Whether the aggregation returned a vector. -/
def AggOutcome.isOk {n : ℕ} : AggOutcome n → Bool
  | .ok _ _ => true
  | .err _ => false

/-- Shallow embedding of `create_portfolio_embedding`
(`portfolio_embeddings_generator.py:107-209`).  `product_data` is the
result of the `get_embeddings` lookup for the chosen method: `none`
models `product_data["embeddings"] is None`, otherwise a per-product
embedding table.  The three data-dependent failures carry the exact
error strings of the source. -/
def create_portfolio_embedding {n : ℕ}
    (product_data : Option (String → Option (Vec n)))
    (embedding_method : String) (raw_assets : List AssetRow) : AggOutcome n :=
  match product_data with
  | none => .err ("No product embeddings found for '" ++ embedding_method ++ "'")
  | some emb =>
    if raw_assets = [] then .err "No assets found"
    else
      let valid := validAssets raw_assets
      if valid = [] then .err "No valid assets with values"
      else
        let surv := survivors emb valid
        if surv = [] then .err "No valid embeddings found for assets"
        else
          .ok (portfolioVector surv)
            ⟨embedding_method ++ "_weighted", surv.length, totalValue surv,
             embedding_method, "weighted_average"⟩

/-- Smallest coordinate value at axis `k` among the surviving embeddings. -/
def coordMin {n : ℕ} (surv : List (Vec n × ℚ)) (k : Fin n) : ℚ :=
  match surv with
  | [] => 0
  | p :: rest => (rest.map fun q => q.1 k).foldl min (p.1 k)

/-- Largest coordinate value at axis `k` among the surviving embeddings. -/
def coordMax {n : ℕ} (surv : List (Vec n × ℚ)) (k : Fin n) : ℚ :=
  match surv with
  | [] => 0
  | p :: rest => (rest.map fun q => q.1 k).foldl max (p.1 k)

/-! ## Diversification & Risk Metrics
(`portfolio_metrics.py` / `portfolio_metrics_generator.py`) -/

/-- Shallow embedding of `calculate_herfindahl_index`, identical in
`portfolio_metrics.py:30-49` and `portfolio_metrics_generator.py:18-40`:
0 for an empty or zero-sum list, otherwise the sum of the squares of the
internally normalized weights. -/
def calculate_herfindahl_index (weights : List ℚ) : ℚ :=
  if weights = [] ∨ weights.sum = 0 then 0
  else ((weights.map fun w => w / weights.sum).map fun w => w ^ 2).sum

/-- Shallow embedding of `classify_risk_profile`
(`portfolio_metrics.py:220-243`). -/
def classify_risk_profile (herfindahl_index : ℚ) (num_sectors : ℕ)
    (concentration_ratio : ℚ) : String :=
  if concentration_ratio > 7/10 ∨ herfindahl_index > 1/2 then "Concentrated"
  else if num_sectors ≥ 6 ∧ herfindahl_index < 1/4 then "Diversified"
  else if concentration_ratio > 2/5 then "Focused"
  else "Balanced"

/-- Python 3 `round(y)`: round half to even on the exact value. -/
def roundHalfEven (y : ℚ) : ℤ :=
  let n := ⌊y⌋
  let f := y - n
  if f < 1/2 then n
  else if 1/2 < f then n + 1
  else if n % 2 = 0 then n else n + 1

/-- Python `round(x, 1)`: round to one decimal digit. -/
def pyRound1 (x : ℚ) : ℚ := (roundHalfEven (x * 10) : ℚ) / 10

/-- Shallow embedding of `calculate_diversification_score`
(`portfolio_metrics_generator.py:43-68`): 70 points for concentration
`(1 - HHI) * 70` plus 30 points for sector diversity
`min(active_sectors / 8, 1) * 30`, rounded to one decimal; 0 for an
empty list. -/
def calculate_diversification_score (sector_weights : List ℚ) : ℚ :=
  if sector_weights = [] then 0
  else
    let concentration_score := (1 - calculate_herfindahl_index sector_weights) * 70
    let active_sectors := (sector_weights.filter fun w => w > 0).length
    let diversity_score := min ((active_sectors : ℚ) / 8) 1 * 30
    pyRound1 (concentration_score + diversity_score)

/-! ## Cluster assignment (`clustering.py:184-196`) -/

/-- The cluster id computed in `PortfolioSOMClustering.assign_clusters`:
`cluster_id = winning_neuron[0] * self.som_y + winning_neuron[1]`,
where `som_y` is the grid height. -/
def assign_cluster_id (som_y x y : ℕ) : ℕ := x * som_y + y

/-! ## Product-embedding generation dispatch (`embeddings.py:487-562`) -/

/-- The module-level list of supported embedding methods
(`embeddings.py:54-59`). -/
def SUPPORTED_METHODS : List String :=
  ["tfidf_basic", "custom_financial", "word2vec", "glove"]

/-- The possible returns of `generate_embeddings_for_all_products`:
a raised `ValueError` for an unsupported method, the bare empty dict
`{}` when no products were loaded, or the populated result dict. -/
inductive GenOutcome
  | raisedValueError (msg : String)
  | emptyDict
  | ok (method : String) (product_count embedding_dimension : ℕ)
deriving DecidableEq

/-- Shallow embedding of `generate_embeddings_for_all_products`
(`embeddings.py:487-562`).  `products` stands for the batch loaded by
`get_all_products_for_embeddings`; the per-method vectorizers
(`create_tfidf_embedding`, …, external numeric libraries) are abstracted
by `createDim`, which yields the embedding matrix's column count on a
nonempty batch — the branch under study (the empty batch) never reaches
them. -/
def generate_embeddings_for_all_products {α : Type}
    (createDim : String → List α → ℕ) (method : String)
    (products : List α) : GenOutcome :=
  if method ∉ SUPPORTED_METHODS then
    .raisedValueError ("Method '" ++ method ++ "' not supported.")
  else if products.isEmpty then .emptyDict
  else .ok method products.length (createDim method products)

/-- The status dictionary returned by `generate_embeddings_for_method`. -/
inductive MethodStatus
  | success (product_count embedding_dimension : ℕ)
  | skipped (reason : String)
  | failed (reason : String)
  | error (msg : String)
deriving DecidableEq

/-- Shallow embedding of `generate_embeddings_for_method`
(`embeddings.py:595-632`), the caller of
`generate_embeddings_for_all_products`: gensim-dependent methods are
skipped when the dependency is absent, a falsy (empty) result maps to
`{"status": "failed", "reason": "No result returned"}`, a raised
exception to `{"status": "error"}`, anything else to success. -/
def generate_embeddings_for_method {α : Type} (gensimAvailable : Bool)
    (createDim : String → List α → ℕ) (method : String)
    (products : List α) : MethodStatus :=
  if (method = "word2vec" ∨ method = "glove") ∧ gensimAvailable = false then
    .skipped "gensim/nltk not available"
  else
    match generate_embeddings_for_all_products createDim method products with
    | .emptyDict => .failed "No result returned"
    | .raisedValueError msg => .error msg
    | .ok _ pc dim => .success pc dim

/-! ## Self-Organizing Map engine

Modelled from the spec: the SOM engine itself (the `minisom` library
driven by `clustering.py:139-165`) is not part of the repository
sources, so the training loop below follows §4.5 of the specification:
a `W×H` grid of `d`-dimensional neuron weight vectors initialized from
a seeded random source; each iteration draws one sample in a fixed
(cyclic) order, finds the best-matching unit by minimal squared
Euclidean distance, and moves every neuron toward the sample scaled by
a learning-rate schedule and a neighborhood function of the grid
distance to the BMU (both arbitrary here — determinism holds for every
schedule).  Training with zero samples is a validation failure
(`none`).  Grid side lengths are `W+1` and `H+1` so the grid is never
empty. -/

/-- A `(W+1)×(H+1)` grid of `d`-dimensional neuron weight vectors. -/
abbrev SOMGrid (W H d : ℕ) := Fin (W + 1) → Fin (H + 1) → Fin d → ℚ

/-- A deterministic seeded pseudo-random step (linear congruential). -/
def lcg (s : ℕ) : ℕ := (1103515245 * s + 12345) % 2147483648

/-- A rational in `[0,1)` derived from the seeded random source. -/
def randQ (s : ℕ) : ℚ := ((lcg s % 1000 : ℕ) : ℚ) / 1000

/-- Modelled from the spec: grid initialization from a seeded random
source — each neuron coordinate gets a pseudo-random value determined
by the seed and its position. -/
def initGrid (W H d seed : ℕ) : SOMGrid W H d := fun i j k =>
  randQ (seed + (((i : ℕ) * (H + 1) + (j : ℕ)) * d + (k : ℕ)))

/-- Squared Euclidean distance between a neuron's weight vector and a
sample. -/
def neuronDist2 {W H d : ℕ} (g : SOMGrid W H d) (i : Fin (W + 1))
    (j : Fin (H + 1)) (x : Fin d → ℚ) : ℚ :=
  ((List.finRange d).map fun k => (g i j k - x k) ^ 2).sum

/-- All grid coordinates in row-major order. -/
def allCoords (W H : ℕ) : List (Fin (W + 1) × Fin (H + 1)) :=
  (List.finRange (W + 1)).flatMap fun i =>
    (List.finRange (H + 1)).map fun j => (i, j)

/-- Modelled from the spec: the best-matching unit — the grid
coordinates of the neuron minimizing distance to the sample (first, in
row-major order, on ties). -/
def bmu {W H d : ℕ} (g : SOMGrid W H d) (x : Fin d → ℚ) :
    Fin (W + 1) × Fin (H + 1) :=
  (allCoords W H).foldl
    (fun best c =>
      if neuronDist2 g c.1 c.2 x < neuronDist2 g best.1 best.2 x then c else best)
    (⟨0, Nat.succ_pos W⟩, ⟨0, Nat.succ_pos H⟩)

/-- Squared grid distance between two neuron positions. -/
def gridDist2 (a b : ℕ × ℕ) : ℕ :=
  (max a.1 b.1 - min a.1 b.1) ^ 2 + (max a.2 b.2 - min a.2 b.2) ^ 2

/-- Modelled from the spec: one training iteration — every neuron's
weight vector moves toward the sample, scaled by the learning rate at
iteration `t` and the neighborhood function of the squared grid distance
to the BMU. -/
def somStep {W H d : ℕ} (lr : ℕ → ℚ) (neigh : ℕ → ℕ → ℚ)
    (sample : Fin d → ℚ) (t : ℕ) (g : SOMGrid W H d) : SOMGrid W H d :=
  let b := bmu g sample
  fun i j k =>
    g i j k +
      lr t * neigh t (gridDist2 ((b.1 : ℕ), (b.2 : ℕ)) ((i : ℕ), (j : ℕ))) *
        (sample k - g i j k)

/-- Modelled from the spec: `train(samples, iterations)` — initialize
the grid from the seed, then apply `iterations` steps drawing samples
in cyclic order;  zero samples is a validation failure (`none`). -/
def som_train (W H d : ℕ) (lr : ℕ → ℚ) (neigh : ℕ → ℕ → ℚ) (seed : ℕ)
    (samples : List (Fin d → ℚ)) (iterations : ℕ) : Option (SOMGrid W H d) :=
  match samples with
  | [] => none
  | s₀ :: rest =>
    some ((List.range iterations).foldl
      (fun g t => somStep lr neigh ((s₀ :: rest).getD (t % (rest.length + 1)) s₀) t g)
      (initGrid W H d seed))

/-! ## Claims -/

/-- C1: for every triple (HHI, sector count, dominant-sector weight) the
risk classification returns "Concentrated" when dominant weight > 0.7 or
HHI > 0.5; otherwise "Diversified" when sector count ≥ 6 and HHI < 0.25;
otherwise "Focused" when dominant weight > 0.4; otherwise "Balanced";
in particular (0.55, 3, 0.5) ↦ "Concentrated" and (0.2, 7, 0.2) ↦
"Diversified". -/
theorem classify_risk_profile_spec :
    (∀ (h : ℚ) (n : ℕ) (d : ℚ), (d > 7/10 ∨ h > 1/2) →
      classify_risk_profile h n d = "Concentrated")
    ∧ (∀ (h : ℚ) (n : ℕ) (d : ℚ), ¬(d > 7/10 ∨ h > 1/2) → (n ≥ 6 ∧ h < 1/4) →
      classify_risk_profile h n d = "Diversified")
    ∧ (∀ (h : ℚ) (n : ℕ) (d : ℚ), ¬(d > 7/10 ∨ h > 1/2) → ¬(n ≥ 6 ∧ h < 1/4) →
      d > 2/5 → classify_risk_profile h n d = "Focused")
    ∧ (∀ (h : ℚ) (n : ℕ) (d : ℚ), ¬(d > 7/10 ∨ h > 1/2) → ¬(n ≥ 6 ∧ h < 1/4) →
      ¬(d > 2/5) → classify_risk_profile h n d = "Balanced")
    ∧ classify_risk_profile (11/20) 3 (1/2) = "Concentrated"
    ∧ classify_risk_profile (1/5) 7 (1/5) = "Diversified" := by
  refine ⟨?_, ?_, ?_, ?_, ?_, ?_⟩
  · intro h n d hc
    simp only [classify_risk_profile, if_pos hc]
  · intro h n d hc hd
    simp only [classify_risk_profile, if_neg hc, if_pos hd]
  · intro h n d hc hd hf
    simp only [classify_risk_profile, if_neg hc, if_neg hd, if_pos hf]
  · intro h n d hc hd hf
    simp only [classify_risk_profile, if_neg hc, if_neg hd, if_neg hf]
  · norm_num [classify_risk_profile]
  · norm_num [classify_risk_profile]

/-- Witness for C1: the first rule applied at the claim's concrete
triple (0.55, 3, 0.5). -/
theorem classify_risk_profile_spec_witness :
    classify_risk_profile (11/20) 3 (1/2) = "Concentrated" :=
  classify_risk_profile_spec.1 (11/20) 3 (1/2) (by norm_num)

/-- C8: for a W×H grid the cluster id x·H + y of valid BMU coordinates
lies in [0, W·H) and the mapping is injective over valid coordinates,
hence produces W·H distinct integers. -/
theorem assign_cluster_id_injective_bounded :
    ∀ (W H x y x' y' : ℕ), x < W → y < H → x' < W → y' < H →
      assign_cluster_id H x y < W * H ∧
      (assign_cluster_id H x y = assign_cluster_id H x' y' → x = x' ∧ y = y') := by
  intro W H x y x' y' hx hy hx' hy'
  have key : ∀ a b : ℕ, b < H → (assign_cluster_id H a b) / H = a := by
    intro a b hb
    have hH : 0 < H := by omega
    simp [assign_cluster_id, Nat.mul_comm a H, Nat.mul_add_div hH, Nat.div_eq_of_lt hb]
  constructor
  · have h1 : assign_cluster_id H x y < (x + 1) * H := by
      simp only [assign_cluster_id, Nat.succ_mul]
      omega
    exact lt_of_lt_of_le h1 (Nat.mul_le_mul_right H (by omega))
  · intro heq
    have hxx : x = x' := by
      have := congrArg (· / H) heq
      simpa [key x y hy, key x' y' hy'] using this
    refine ⟨hxx, ?_⟩
    simp only [assign_cluster_id, hxx] at heq
    omega

/-- Witness for C8: coordinates (1,2) on a 2×3 grid give id 5 < 6 and
the injectivity instance holds. -/
theorem assign_cluster_id_injective_bounded_witness :
    assign_cluster_id 3 1 2 < 2 * 3 ∧
      (assign_cluster_id 3 1 2 = assign_cluster_id 3 1 2 → 1 = 1 ∧ 2 = 2) :=
  assign_cluster_id_injective_bounded 2 3 1 2 1 2 (by decide) (by decide)
    (by decide) (by decide)

/-- C7: for every supported embedding method, generation on an empty
product batch yields the falsy empty dict at
`generate_embeddings_for_all_products`, which the caller
`generate_embeddings_for_method` surfaces as the structured failure
status "failed"/"No result returned"; no success-shaped result is ever
produced from an empty batch. -/
theorem empty_batch_never_success {α : Type} (ga : Bool)
    (createDim : String → List α → ℕ) (method : String)
    (hm : method ∈ SUPPORTED_METHODS) :
    generate_embeddings_for_all_products createDim method ([] : List α) =
      GenOutcome.emptyDict
    ∧ (∀ pc dim, generate_embeddings_for_method ga createDim method ([] : List α) ≠
      MethodStatus.success pc dim)
    ∧ (ga = true → generate_embeddings_for_method ga createDim method ([] : List α) =
      MethodStatus.failed "No result returned") := by
  have hall : generate_embeddings_for_all_products createDim method ([] : List α) =
      GenOutcome.emptyDict := by
    simp [generate_embeddings_for_all_products, hm]
  refine ⟨hall, ?_, ?_⟩
  · intro pc dim
    by_cases hskip : (method = "word2vec" ∨ method = "glove") ∧ ga = false
    · simp [generate_embeddings_for_method, if_pos hskip]
    · simp only [generate_embeddings_for_method, if_neg hskip, hall]
      simp
  · intro hga
    have hskip : ¬((method = "word2vec" ∨ method = "glove") ∧ ga = false) := by
      simp [hga]
    simp only [generate_embeddings_for_method, if_neg hskip, hall]

/-- Witness for C7: the tfidf method on an empty batch. -/
theorem empty_batch_never_success_witness :
    generate_embeddings_for_all_products (fun _ _ => 0) "tfidf_basic" ([] : List Unit) =
      GenOutcome.emptyDict
    ∧ (∀ pc dim, generate_embeddings_for_method true (fun _ _ => 0) "tfidf_basic"
      ([] : List Unit) ≠ MethodStatus.success pc dim)
    ∧ (true = true → generate_embeddings_for_method true (fun _ _ => 0) "tfidf_basic"
      ([] : List Unit) = MethodStatus.failed "No result returned") :=
  empty_batch_never_success true (fun _ _ => 0) "tfidf_basic" (by decide)

/-- C9 (spec-modelled; the SOM engine is the external `minisom` library
configured by `clustering.py:139-165`): training twice with the same
seed, the same sample order and the same iteration count yields grids
whose corresponding neuron weights differ by less than the fixed
tolerance 10⁻⁹, for every learning-rate and neighborhood schedule. -/
theorem som_train_deterministic (W H d : ℕ) (lr : ℕ → ℚ) (neigh : ℕ → ℕ → ℚ)
    (seed₁ seed₂ : ℕ) (samples₁ samples₂ : List (Fin d → ℚ)) (iter₁ iter₂ : ℕ)
    (hseed : seed₁ = seed₂) (hsamp : samples₁ = samples₂) (hiter : iter₁ = iter₂)
    (hne : samples₁ ≠ []) :
    ∃ g₁ g₂ : SOMGrid W H d,
      som_train W H d lr neigh seed₁ samples₁ iter₁ = some g₁ ∧
      som_train W H d lr neigh seed₂ samples₂ iter₂ = some g₂ ∧
      ∀ i j k, |g₁ i j k - g₂ i j k| < 1 / 1000000000 := by
  subst hseed hsamp hiter
  match samples₁, hne with
  | s₀ :: rest, _ =>
    refine ⟨_, _, rfl, rfl, fun i j k => ?_⟩
    simp [sub_self, abs_zero]

/-- Witness for C9: a 1×1 grid, one 1-dimensional sample, two
iterations, seed 0, constant schedules. -/
theorem som_train_deterministic_witness :
    ∃ g₁ g₂ : SOMGrid 0 0 1,
      som_train 0 0 1 (fun _ => 1/2) (fun _ _ => 1) 0 [fun _ => 1] 2 = some g₁ ∧
      som_train 0 0 1 (fun _ => 1/2) (fun _ _ => 1) 0 [fun _ => 1] 2 = some g₂ ∧
      ∀ i j k, |g₁ i j k - g₂ i j k| < 1 / 1000000000 :=
  som_train_deterministic 0 0 1 (fun _ => 1/2) (fun _ _ => 1) 0 0
    [fun _ => 1] [fun _ => 1] 2 2 rfl rfl rfl (List.cons_ne_nil _ _)

/-- C2: the value parser applies its rules in order and returns the
first match — (1) the three qualitative phrases map to their fixed
constants 500 / 1500000 / 50000 in that precedence; (2) a two-bound
range with currency markers returns the midpoint of the two extracted
bounds, e.g. "$15,001 - $50,000" ↦ 32500.5; (3) a single
currency-prefixed number returns that number; (4) a bare numeric string
returns that number; (5) otherwise the unresolved sentinel −1, which is
never zero. -/
theorem parse_asset_value_rule_order :
    (∀ s : String, s.data ≠ [] → isNullMarker (cleanOf s) = false →
      containsB "none (or less than $1,001)".data (cleanOf s) = true →
      parse_asset_value s = 500)
    ∧ (∀ s : String, s.data ≠ [] → isNullMarker (cleanOf s) = false →
      containsB "none (or less than $1,001)".data (cleanOf s) = false →
      containsB "over $1,000,000".data (cleanOf s) = true →
      parse_asset_value s = 1500000)
    ∧ (∀ s : String, s.data ≠ [] → isNullMarker (cleanOf s) = false →
      containsB "none (or less than $1,001)".data (cleanOf s) = false →
      containsB "over $1,000,000".data (cleanOf s) = false →
      containsB "unascertainable".data (cleanOf s) = true →
      parse_asset_value s = 50000)
    ∧ (∀ (s : String) (a b : List Char) (rest : List (List Char)) (lo hi : ℚ),
      s.data ≠ [] → isNullMarker (cleanOf s) = false →
      containsB "none (or less than $1,001)".data (cleanOf s) = false →
      containsB "over $1,000,000".data (cleanOf s) = false →
      containsB "unascertainable".data (cleanOf s) = false →
      containsB " - ".data (cleanOf s) = true →
      containsB "$".data (cleanOf s) = true →
      digitRuns s.data = a :: b :: rest →
      runToFloat a = some lo → runToFloat b = some hi →
      parse_asset_value s = (lo + hi) / 2)
    ∧ (∀ (s : String) (a : List Char) (rest : List (List Char)) (v : ℚ),
      s.data ≠ [] → isNullMarker (cleanOf s) = false →
      containsB "none (or less than $1,001)".data (cleanOf s) = false →
      containsB "over $1,000,000".data (cleanOf s) = false →
      containsB "unascertainable".data (cleanOf s) = false →
      containsB " - ".data (cleanOf s) = false →
      containsB "$".data (cleanOf s) = true →
      digitRuns (s.data.filter (fun c => c ≠ '$')) = a :: rest →
      runToFloat a = some v →
      parse_asset_value s = v)
    ∧ (∀ (s : String) (q : ℚ),
      s.data ≠ [] → isNullMarker (cleanOf s) = false →
      containsB "none (or less than $1,001)".data (cleanOf s) = false →
      containsB "over $1,000,000".data (cleanOf s) = false →
      containsB "unascertainable".data (cleanOf s) = false →
      containsB "$".data (cleanOf s) = false →
      pyFloat ((cleanOf s).filter (fun c => c ≠ ',')) = some q →
      parse_asset_value s = q)
    ∧ (∀ s : String,
      s.data ≠ [] → isNullMarker (cleanOf s) = false →
      containsB "none (or less than $1,001)".data (cleanOf s) = false →
      containsB "over $1,000,000".data (cleanOf s) = false →
      containsB "unascertainable".data (cleanOf s) = false →
      containsB "$".data (cleanOf s) = false →
      pyFloat ((cleanOf s).filter (fun c => c ≠ ',')) = none →
      parse_asset_value s = -1 ∧ parse_asset_value s ≠ 0)
    ∧ parse_asset_value "$15,001 - $50,000" = 65001 / 2 := by
  refine ⟨?_, ?_, ?_, ?_, ?_, ?_, ?_, ?_⟩
  · intro s hne hnull h1
    simp [parse_asset_value, hne, hnull, h1]
  · intro s hne hnull h1 h2
    simp [parse_asset_value, hne, hnull, h1, h2]
  · intro s hne hnull h1 h2 h3
    simp [parse_asset_value, hne, hnull, h1, h2, h3]
  · intro s a b rest lo hi hne hnull h1 h2 h3 hdash hdollar hruns hlo hhi
    simp [parse_asset_value, hne, hnull, h1, h2, h3, hdash, hdollar, hruns, hlo, hhi]
  · intro s a rest v hne hnull h1 h2 h3 hdash hdollar hruns hv
    simp only [ne_eq, decide_not] at hruns
    simp [parse_asset_value, hne, hnull, h1, h2, h3, hdash, hdollar, hruns, hv]
  · intro s q hne hnull h1 h2 h3 hdollar hq
    simp only [ne_eq, decide_not] at hq
    simp [parse_asset_value, hne, hnull, h1, h2, h3, hdollar, hq]
  · intro s hne hnull h1 h2 h3 hdollar hq
    simp only [ne_eq, decide_not] at hq
    simp [parse_asset_value, hne, hnull, h1, h2, h3, hdollar, hq]
  · simp +decide [parse_asset_value, cleanOf, lowerL, stripL, isNullMarker, containsB,
      isPrefB, digitRuns, runsAux, runToFloat, digitsToNat, pyFloat, parseUnsignedDec,
      parseExp, isNumC, isWS]
    norm_num

/-- Witness for C2: the under-threshold qualitative phrase at a
concrete input. -/
theorem parse_asset_value_rule_order_witness :
    parse_asset_value "None (or less than $1,001)" = 500 :=
  parse_asset_value_rule_order.1 "None (or less than $1,001)"
    (by decide) (by decide) (by decide)

/-- C3: the claim says an unresolved holding is dropped iff its product
NAME overlaps another holding's product name as a substring.  The code
instead substring-matches the stringified integer `product_id`s
(`assets.product_id` is an `INTEGER` foreign key; the names live in the
`products` table and are never consulted).  Concretely, for a holder
with assets `(product_id=1, value "n/a")` and
`(product_id=12, value "$1,000 - $2,000")` whose product names
"alpha fund" and "beta corp" share no substring in either direction
(first two conjuncts), the code still treats asset 1 as a parent
("1" is a substring of "12") and drops it instead of keeping it with
the 25000 default.  The last two conjuncts check that the substring
logic does behave as the spec example describes when it is given the
names "Example Growth Fund" / "Example Growth Fund – Class A"
themselves. -/
theorem has_child_assets_id_vs_name :
    containsB (lowerL "alpha fund".data) (lowerL "beta corp".data) = false
    ∧ containsB (lowerL "beta corp".data) (lowerL "alpha fund".data) = false
    ∧ has_child_assets "1" [⟨"1", "n/a"⟩, ⟨"12", "$1,000 - $2,000"⟩] = true
    ∧ validAssets [⟨"1", "n/a"⟩, ⟨"12", "$1,000 - $2,000"⟩] = [("12", 1500)]
    ∧ has_child_assets "Example Growth Fund"
        [⟨"Example Growth Fund", "n/a"⟩,
         ⟨"Example Growth Fund – Class A", "$15,001 - $50,000"⟩] = true
    ∧ validAssets [⟨"Example Growth Fund", "n/a"⟩,
        ⟨"Example Growth Fund – Class A", "$15,001 - $50,000"⟩] =
      [("Example Growth Fund – Class A", 65001 / 2)] := by
  have hp1 : parse_asset_value "n/a" = -1 := by
    simp +decide [parse_asset_value, cleanOf, lowerL, stripL, isNullMarker]
  have hp2 : parse_asset_value "$1,000 - $2,000" = 1500 := by
    simp +decide [parse_asset_value, cleanOf, lowerL, stripL, isNullMarker, containsB,
      isPrefB, digitRuns, runsAux, runToFloat, digitsToNat, isNumC, isWS]
    norm_num
  have hp3 : parse_asset_value "$15,001 - $50,000" = 65001 / 2 := by
    simp +decide [parse_asset_value, cleanOf, lowerL, stripL, isNullMarker, containsB,
      isPrefB, digitRuns, runsAux, runToFloat, digitsToNat, isNumC, isWS]
    norm_num
  have hc1 : has_child_assets "1" [⟨"1", "n/a"⟩, ⟨"12", "$1,000 - $2,000"⟩] = true := by
    decide
  have hc2 : has_child_assets "Example Growth Fund"
      [⟨"Example Growth Fund", "n/a"⟩,
       ⟨"Example Growth Fund – Class A", "$15,001 - $50,000"⟩] = true := by
    decide
  refine ⟨by decide, by decide, hc1, ?_, hc2, ?_⟩
  · norm_num [validAssets, validAssetsAux, hp1, hp2, hc1]
  · norm_num [validAssets, validAssetsAux, hp1, hp3, hc2]

/-! ### Herfindahl-index lemmas -/

/-- Dividing every list entry by a constant divides the sum. -/
theorem sum_map_div_const (l : List ℚ) (c : ℚ) :
    (l.map fun x => x / c).sum = l.sum / c := by
  induction l with
  | nil => simp
  | cons x xs ih => simp [ih, add_div]

/-- Multiplying every list entry by a constant multiplies the sum. -/
theorem sum_map_mul_const (c : ℚ) (l : List ℚ) :
    (l.map fun x => c * x).sum = c * l.sum := by
  induction l with
  | nil => simp
  | cons x xs ih => simp [ih, mul_add]

/-- A sum of squares of list entries is nonnegative. -/
theorem sum_map_sq_nonneg (l : List ℚ) : 0 ≤ (l.map fun x => x ^ 2).sum := by
  apply List.sum_nonneg
  intro x hx
  obtain ⟨y, _, rfl⟩ := List.mem_map.1 hx
  positivity

/-- For nonnegative entries the sum of squares is at most the square of
the sum. -/
theorem sum_map_sq_le_sq_sum (l : List ℚ) (h : ∀ x ∈ l, 0 ≤ x) :
    (l.map fun x => x ^ 2).sum ≤ l.sum ^ 2 := by
  induction l with
  | nil => simp
  | cons x xs ih =>
    have hx : 0 ≤ x := h x (List.mem_cons_self x xs)
    have hxs : ∀ y ∈ xs, 0 ≤ y := fun y hy => h y (List.mem_cons_of_mem x hy)
    have ht : 0 ≤ xs.sum := List.sum_nonneg hxs
    have hih := ih hxs
    simp only [List.map_cons, List.sum_cons]
    nlinarith [hih, ht, hx]

/-- `Σ x(1−x)` splits into `Σx − Σx²`. -/
theorem sum_map_selfcompl (l : List ℚ) :
    (l.map fun x => x * (1 - x)).sum = l.sum - (l.map fun x => x ^ 2).sum := by
  induction l with
  | nil => simp
  | cons x xs ih =>
    simp only [List.map_cons, List.sum_cons, ih]
    ring

/-- A list of 0/1 entries sums to its number of ones. -/
theorem sum_eq_count_one (l : List ℚ) (h : ∀ x ∈ l, x = 0 ∨ x = 1) :
    l.sum = (l.count 1 : ℚ) := by
  induction l with
  | nil => simp
  | cons x xs ih =>
    have hx := h x (List.mem_cons_self x xs)
    have ihh := ih fun y hy => h y (List.mem_cons_of_mem x hy)
    rcases hx with rfl | rfl
    · have : ((0 : ℚ) :: xs).count 1 = xs.count 1 := by
        simp [List.count_cons]
      rw [List.sum_cons, this, zero_add, ihh]
    · have : ((1 : ℚ) :: xs).count 1 = xs.count 1 + 1 := by
        simp [List.count_cons]
      rw [List.sum_cons, this, ihh]
      push_cast
      ring

/-- The Herfindahl index is always nonnegative. -/
theorem hhi_nonneg (w : List ℚ) : 0 ≤ calculate_herfindahl_index w := by
  unfold calculate_herfindahl_index
  split
  · exact le_refl 0
  · exact sum_map_sq_nonneg _

/-- For a nonnegative weight list the Herfindahl index is at most 1. -/
theorem hhi_le_one (w : List ℚ) (h : ∀ x ∈ w, 0 ≤ x) :
    calculate_herfindahl_index w ≤ 1 := by
  unfold calculate_herfindahl_index
  split
  · norm_num
  · rename_i hcond
    push_neg at hcond
    obtain ⟨hne, hsum⟩ := hcond
    have hs : 0 < w.sum := lt_of_le_of_ne (List.sum_nonneg h) (Ne.symm hsum)
    have hnl : ∀ x ∈ w.map fun x => x / w.sum, 0 ≤ x := by
      intro x hx
      obtain ⟨y, hy, rfl⟩ := List.mem_map.1 hx
      exact div_nonneg (h y hy) hs.le
    have hnlsum : (w.map fun x => x / w.sum).sum = 1 := by
      rw [sum_map_div_const, div_self hsum]
    calc ((w.map fun x => x / w.sum).map fun x => x ^ 2).sum
        ≤ (w.map fun x => x / w.sum).sum ^ 2 := sum_map_sq_le_sq_sum _ hnl
    _ = 1 := by rw [hnlsum]; norm_num

/-- On a pre-normalized list the index is literally the sum of squared
weights. -/
theorem hhi_of_sum_one (w : List ℚ) (hsum : w.sum = 1) :
    calculate_herfindahl_index w = (w.map fun x => x ^ 2).sum := by
  have hne : w ≠ [] := by
    rintro rfl
    simp at hsum
  have hs0 : w.sum ≠ 0 := by rw [hsum]; norm_num
  unfold calculate_herfindahl_index
  rw [if_neg (by push_neg; exact ⟨hne, hs0⟩), hsum]
  simp [div_one]

/-- For nonnegative weights summing to 1, the index reaches 1 exactly
when exactly one weight equals 1. -/
theorem hhi_eq_one_iff (w : List ℚ) (h : ∀ x ∈ w, 0 ≤ x) (hsum : w.sum = 1) :
    calculate_herfindahl_index w = 1 ↔ w.count 1 = 1 := by
  rw [hhi_of_sum_one w hsum]
  constructor
  · intro h1
    have hle : ∀ x ∈ w, x ≤ 1 := fun x hx => hsum ▸ List.single_le_sum h x hx
    have hterms : ∀ y ∈ w.map fun x => x * (1 - x), 0 ≤ y := by
      intro y hy
      obtain ⟨x, hx, rfl⟩ := List.mem_map.1 hy
      have := hle x hx
      have := h x hx
      nlinarith
    have hzero : (w.map fun x => x * (1 - x)).sum = 0 := by
      rw [sum_map_selfcompl, hsum, h1]
      ring
    have h01 : ∀ x ∈ w, x = 0 ∨ x = 1 := by
      intro x hx
      have hx0 : x * (1 - x) = 0 :=
        List.all_zero_of_le_zero_le_of_sum_eq_zero hterms hzero
          (List.mem_map_of_mem _ hx)
      rcases mul_eq_zero.1 hx0 with h0 | h1x
      · exact Or.inl h0
      · right
        linarith
    have hcast : (1 : ℚ) = (w.count 1 : ℚ) := hsum ▸ sum_eq_count_one w h01
    exact_mod_cast hcast.symm
  · intro hcount
    have h1w : (1 : ℚ) ∈ w := by
      by_contra hmem
      rw [List.count_eq_zero_of_not_mem hmem] at hcount
      omega
    obtain ⟨l₁, l₂, rfl⟩ := List.append_of_mem h1w
    have h₁ : ∀ x ∈ l₁, 0 ≤ x := fun x hx => h x (by simp [hx])
    have h₂ : ∀ x ∈ l₂, 0 ≤ x := fun x hx => h x (by simp [hx])
    have hsum' : l₁.sum + (1 + l₂.sum) = 1 := by simpa using hsum
    have hz₁ : l₁.sum = 0 := by
      have := List.sum_nonneg h₁
      have := List.sum_nonneg h₂
      linarith
    have hz₂ : l₂.sum = 0 := by
      have := List.sum_nonneg h₁
      have := List.sum_nonneg h₂
      linarith
    have e₁ : (l₁.map fun x => x ^ 2).sum = 0 := by
      apply List.sum_eq_zero
      intro y hy
      obtain ⟨x, hx, rfl⟩ := List.mem_map.1 hy
      rw [List.all_zero_of_le_zero_le_of_sum_eq_zero h₁ hz₁ hx]
      ring
    have e₂ : (l₂.map fun x => x ^ 2).sum = 0 := by
      apply List.sum_eq_zero
      intro y hy
      obtain ⟨x, hx, rfl⟩ := List.mem_map.1 hy
      rw [List.all_zero_of_le_zero_le_of_sum_eq_zero h₂ hz₂ hx]
      ring
    rw [List.map_append, List.sum_append, List.map_cons, List.sum_cons, e₁, e₂]
    norm_num

/-- `n` equal positive weights give index `1/n`. -/
theorem hhi_replicate (n : ℕ) (c : ℚ) (hn : 0 < n) (hc : 0 < c) :
    calculate_herfindahl_index (List.replicate n c) = 1 / n := by
  have hne : List.replicate n c ≠ [] := by
    intro hnil
    have := congrArg List.length hnil
    simp at this
    omega
  have hsum : (List.replicate n c).sum = n * c := by
    simp [List.sum_replicate, nsmul_eq_mul]
  have hn' : ((n : ℚ)) ≠ 0 := by
    exact_mod_cast hn.ne'
  have hs0 : (List.replicate n c).sum ≠ 0 := by
    rw [hsum]
    exact mul_ne_zero hn' hc.ne'
  unfold calculate_herfindahl_index
  rw [if_neg (by push_neg; exact ⟨hne, hs0⟩), hsum]
  simp only [List.map_replicate, List.sum_replicate, nsmul_eq_mul]
  rw [div_pow]
  field_simp
  ring

/-- The index is invariant under scaling all weights by a positive
constant (internal normalization). -/
theorem hhi_scale_invariant (w : List ℚ) (c : ℚ) (hc : 0 < c) :
    calculate_herfindahl_index (w.map fun x => c * x) = calculate_herfindahl_index w := by
  have hssum : (w.map fun x => c * x).sum = c * w.sum := sum_map_mul_const c w
  by_cases hw : w = [] ∨ w.sum = 0
  · have hw' : w.map (fun x => c * x) = [] ∨ (w.map fun x => c * x).sum = 0 := by
      rcases hw with rfl | h0
      · exact Or.inl (by simp)
      · exact Or.inr (by rw [hssum, h0, mul_zero])
    unfold calculate_herfindahl_index
    rw [if_pos hw, if_pos hw']
  · push_neg at hw
    obtain ⟨hne, hs⟩ := hw
    have hw' : ¬(w.map (fun x => c * x) = [] ∨ (w.map fun x => c * x).sum = 0) := by
      push_neg
      refine ⟨by simp [hne], ?_⟩
      rw [hssum]
      exact mul_ne_zero hc.ne' hs
    unfold calculate_herfindahl_index
    rw [if_neg hw', if_neg (by push_neg; exact ⟨hne, hs⟩), hssum]
    simp only [List.map_map]
    apply congrArg List.sum
    apply List.map_congr_left
    intro x _
    simp only [Function.comp_apply]
    rw [mul_div_mul_left x w.sum hc.ne']

/-- C4: for nonnegative weights summing to 1 the Herfindahl index is the
sum of squared normalized weights and lies in [0,1]; it is 1 iff exactly
one weight is 1; n equal positive weights give 1/n, so
HHI([0.25,0.25,0.25,0.25]) = 0.25; the function normalizes a scaled
input internally; an empty or all-zero input returns 0. -/
theorem herfindahl_index_spec :
    (∀ w : List ℚ, (∀ x ∈ w, 0 ≤ x) → w.sum = 1 →
      calculate_herfindahl_index w = (w.map fun x => x ^ 2).sum ∧
      0 ≤ calculate_herfindahl_index w ∧ calculate_herfindahl_index w ≤ 1)
    ∧ (∀ w : List ℚ, (∀ x ∈ w, 0 ≤ x) → w.sum = 1 →
      (calculate_herfindahl_index w = 1 ↔ w.count 1 = 1))
    ∧ (∀ (n : ℕ) (c : ℚ), 0 < n → 0 < c →
      calculate_herfindahl_index (List.replicate n c) = 1 / n)
    ∧ calculate_herfindahl_index [1/4, 1/4, 1/4, 1/4] = 1/4
    ∧ (∀ (w : List ℚ) (c : ℚ), 0 < c →
      calculate_herfindahl_index (w.map fun x => c * x) = calculate_herfindahl_index w)
    ∧ calculate_herfindahl_index [] = 0
    ∧ (∀ w : List ℚ, (∀ x ∈ w, x = 0) → calculate_herfindahl_index w = 0) := by
  refine ⟨?_, hhi_eq_one_iff, hhi_replicate, ?_, hhi_scale_invariant, ?_, ?_⟩
  · intro w h hsum
    exact ⟨hhi_of_sum_one w hsum, hhi_nonneg w, hhi_le_one w h⟩
  · rw [show ([1/4, 1/4, 1/4, 1/4] : List ℚ) = List.replicate 4 (1/4) from rfl,
      hhi_replicate 4 (1/4) (by norm_num) (by norm_num)]
    norm_num
  · unfold calculate_herfindahl_index
    rw [if_pos (Or.inl rfl)]
  · intro w hz
    unfold calculate_herfindahl_index
    rw [if_pos (Or.inr (List.sum_eq_zero hz))]

/-- Witness for C4: the weight vector [1/2, 1/2]. -/
theorem herfindahl_index_spec_witness :
    calculate_herfindahl_index [1/2, 1/2] =
      (([1/2, 1/2] : List ℚ).map fun x => x ^ 2).sum ∧
    0 ≤ calculate_herfindahl_index [1/2, 1/2] ∧
    calculate_herfindahl_index [1/2, 1/2] ≤ 1 :=
  herfindahl_index_spec.1 [1/2, 1/2]
    (by
      intro x hx
      rcases List.mem_cons.1 hx with rfl | hx'
      · norm_num
      · rcases List.mem_cons.1 hx' with rfl | hx''
        · norm_num
        · simp at hx'')
    (by norm_num)

/-! ### Rounding and diversification-score lemmas -/

/-- Half-even rounding of a nonnegative value is nonnegative. -/
theorem roundHalfEven_nonneg (y : ℚ) (hy : 0 ≤ y) : 0 ≤ roundHalfEven y := by
  have h0 : (0 : ℤ) ≤ ⌊y⌋ := Int.floor_nonneg.2 hy
  unfold roundHalfEven
  dsimp only
  split_ifs <;> omega

/-- Half-even rounding respects an integer upper bound. -/
theorem roundHalfEven_le (y : ℚ) (B : ℤ) (hy : y ≤ B) : roundHalfEven y ≤ B := by
  have hfl : ⌊y⌋ ≤ B := by
    have := Int.floor_le_floor (α := ℚ) hy
    simpa using this
  have hup : ((⌊y⌋ : ℚ) + 1/2 ≤ y) → ⌊y⌋ + 1 ≤ B := by
    intro hhalf
    have hlt : (⌊y⌋ : ℚ) < (B : ℚ) := by linarith
    have : ⌊y⌋ < B := by exact_mod_cast hlt
    omega
  unfold roundHalfEven
  dsimp only
  split_ifs with h1 h2 h3
  · exact hfl
  · exact hup (by linarith)
  · exact hfl
  · push_neg at h1
    exact hup (by linarith)

/-- `pyRound1` keeps a value of [0,100] inside [0,100]. -/
theorem pyRound1_bounds (x : ℚ) (h0 : 0 ≤ x) (h100 : x ≤ 100) :
    0 ≤ pyRound1 x ∧ pyRound1 x ≤ 100 := by
  have r0 := roundHalfEven_nonneg (x * 10) (by linarith)
  have r1 := roundHalfEven_le (x * 10) 1000 (by push_cast; linarith)
  unfold pyRound1
  constructor
  · apply div_nonneg _ (by norm_num)
    exact_mod_cast r0
  · rw [div_le_iff₀ (by norm_num)]
    calc ((roundHalfEven (x * 10)) : ℚ) ≤ 1000 := by exact_mod_cast r1
    _ = 100 * 10 := by norm_num

/-- C10: for every nonnegative weight list the diversification score is
`(1 − HHI)·70 + min(active_sector_count/8, 1)·30` rounded to one
decimal, always lies in [0,100], and an empty list scores 0.  (The spec
never mentions this score although it is exported in the metrics rows
and averaged in party-level reports.) -/
theorem calculate_diversification_score_spec :
    (∀ w : List ℚ, (∀ x ∈ w, 0 ≤ x) →
      0 ≤ calculate_diversification_score w ∧
        calculate_diversification_score w ≤ 100)
    ∧ (∀ w : List ℚ, w ≠ [] →
      calculate_diversification_score w =
        pyRound1 ((1 - calculate_herfindahl_index w) * 70 +
          min (((w.filter fun x => x > 0).length : ℚ) / 8) 1 * 30))
    ∧ calculate_diversification_score [] = 0 := by
  refine ⟨?_, ?_, by simp [calculate_diversification_score]⟩
  · intro w h
    by_cases hne : w = []
    · subst hne
      simp [calculate_diversification_score]
    · have hhi0 := hhi_nonneg w
      have hhi1 := hhi_le_one w h
      have hm0 : (0 : ℚ) ≤ min (((w.filter fun x => x > 0).length : ℚ) / 8) 1 :=
        le_min (by positivity) (by norm_num)
      have hm1 : min (((w.filter fun x => x > 0).length : ℚ) / 8) 1 ≤ 1 :=
        min_le_right _ _
      have harg0 : (0 : ℚ) ≤ (1 - calculate_herfindahl_index w) * 70 +
          min (((w.filter fun x => x > 0).length : ℚ) / 8) 1 * 30 := by nlinarith
      have harg100 : (1 - calculate_herfindahl_index w) * 70 +
          min (((w.filter fun x => x > 0).length : ℚ) / 8) 1 * 30 ≤ 100 := by nlinarith
      have := pyRound1_bounds _ harg0 harg100
      unfold calculate_diversification_score
      rw [if_neg hne]
      exact this
  · intro w hne
    unfold calculate_diversification_score
    rw [if_neg hne]

/-- Witness for C10: the weight vector [1/2, 1/2]. -/
theorem calculate_diversification_score_spec_witness :
    0 ≤ calculate_diversification_score [1/2, 1/2] ∧
      calculate_diversification_score [1/2, 1/2] ≤ 100 :=
  calculate_diversification_score_spec.1 [1/2, 1/2]
    (by
      intro x hx
      rcases List.mem_cons.1 hx with rfl | hx'
      · norm_num
      · rcases List.mem_cons.1 hx' with rfl | hx''
        · norm_num
        · simp at hx'')

/-- C6: given product embeddings for the method, portfolio aggregation
either returns a vector together with metadata carrying the method
name, the surviving asset count and the total value, or one of exactly
three pairwise distinct structured failure reasons — "No assets found",
"No valid assets with values", "No valid embeddings found for assets" —
and never a raised exception (the model is a total function). -/
theorem create_portfolio_embedding_outcomes {n : ℕ}
    (emb : String → Option (Vec n)) (method : String) (raw : List AssetRow) :
    ((∃ v meta, create_portfolio_embedding (some emb) method raw = AggOutcome.ok v meta ∧
        meta.method = method ++ "_weighted" ∧
        meta.asset_count = (survivors emb (validAssets raw)).length ∧
        meta.total_value = totalValue (survivors emb (validAssets raw)))
      ∨ create_portfolio_embedding (some emb) method raw =
          AggOutcome.err "No assets found"
      ∨ create_portfolio_embedding (some emb) method raw =
          AggOutcome.err "No valid assets with values"
      ∨ create_portfolio_embedding (some emb) method raw =
          AggOutcome.err "No valid embeddings found for assets")
    ∧ ("No assets found" ≠ "No valid assets with values"
      ∧ "No assets found" ≠ "No valid embeddings found for assets"
      ∧ "No valid assets with values" ≠ "No valid embeddings found for assets") := by
  refine ⟨?_, by decide, by decide, by decide⟩
  by_cases h1 : raw = []
  · exact Or.inr (Or.inl (by simp [create_portfolio_embedding, h1]))
  · by_cases h2 : validAssets raw = []
    · exact Or.inr (Or.inr (Or.inl (by simp [create_portfolio_embedding, h1, h2])))
    · by_cases h3 : survivors emb (validAssets raw) = []
      · exact Or.inr (Or.inr (Or.inr (by simp [create_portfolio_embedding, h1, h2, h3])))
      · refine Or.inl ⟨portfolioVector (survivors emb (validAssets raw)),
          ⟨method ++ "_weighted", (survivors emb (validAssets raw)).length,
           totalValue (survivors emb (validAssets raw)), method, "weighted_average"⟩,
          ?_, rfl, rfl, rfl⟩
        simp [create_portfolio_embedding, h1, h2, h3]

/-! ### Aggregation lemmas for the convexity claim -/

/-- Every value kept by the valid-asset filter is strictly positive
(either the parsed value, guarded by `value > 0`, or the 25000
default). -/
theorem validAssetsAux_pos (all : List AssetRow) :
    ∀ (l : List AssetRow), ∀ p ∈ validAssetsAux all l, 0 < p.2 := by
  intro l
  induction l with
  | nil => intro p hp; simp [validAssetsAux] at hp
  | cons a rest ih =>
    intro p hp
    unfold validAssetsAux at hp
    dsimp only at hp
    by_cases h1 : parse_asset_value a.value = -1
    · rw [if_pos h1] at hp
      by_cases h2 : has_child_assets a.product_id all = true
      · rw [if_pos h2] at hp
        exact ih p hp
      · rw [if_neg h2] at hp
        rcases List.mem_cons.1 hp with rfl | hp'
        · norm_num
        · exact ih p hp'
    · rw [if_neg h1] at hp
      by_cases h3 : parse_asset_value a.value > 0
      · rw [if_pos h3] at hp
        rcases List.mem_cons.1 hp with rfl | hp'
        · exact h3
        · exact ih p hp'
      · rw [if_neg h3] at hp
        exact ih p hp

/-- Positivity of values survives the embedding-lookup filter. -/
theorem survivors_pos {n : ℕ} (emb : String → Option (Vec n)) :
    ∀ (l : List (String × ℚ)), (∀ p ∈ l, 0 < p.2) →
      ∀ q ∈ survivors emb l, 0 < q.2 := by
  intro l
  induction l with
  | nil => intro _ q hq; simp [survivors] at hq
  | cons p rest ih =>
    intro hl q hq
    have hrest : ∀ r ∈ rest, 0 < r.2 := fun r hr => hl r (List.mem_cons_of_mem p hr)
    obtain ⟨pid, v⟩ := p
    cases hemb : emb pid with
    | none =>
      simp only [survivors, hemb] at hq
      exact ih hrest q hq
    | some e =>
      simp only [survivors, hemb] at hq
      by_cases hz : isZeroVec e = true
      · rw [if_pos hz] at hq
        exact ih hrest q hq
      · rw [if_neg hz] at hq
        rcases List.mem_cons.1 hq with rfl | hq'
        · exact hl (pid, v) (List.mem_cons_self _ _)
        · exact ih hrest q hq'

/-- The total surviving value is positive when some holding survives. -/
theorem totalValue_pos {n : ℕ} (surv : List (Vec n × ℚ)) (hne : surv ≠ [])
    (hv : ∀ q ∈ surv, 0 < q.2) : 0 < totalValue surv := by
  unfold totalValue
  apply List.sum_pos
  · intro x hx
    obtain ⟨q, hq, rfl⟩ := List.mem_map.1 hx
    exact hv q hq
  · simpa using hne

/-- The normalized weights sum to 1 whenever the total is nonzero. -/
theorem normWeights_sum_one {n : ℕ} (surv : List (Vec n × ℚ))
    (hT : totalValue surv ≠ 0) : (normWeights surv).sum = 1 := by
  have : normWeights surv = (surv.map Prod.snd).map fun x => x / totalValue surv := by
    rw [List.map_map]
    rfl
  have h2 : (surv.map Prod.snd).sum = totalValue surv := rfl
  rw [this, sum_map_div_const, h2, div_self hT]

/-- Each normalized weight is nonnegative. -/
theorem normWeights_nonneg {n : ℕ} (surv : List (Vec n × ℚ))
    (hT : 0 < totalValue surv) (hv : ∀ q ∈ surv, 0 < q.2) :
    ∀ x ∈ normWeights surv, 0 ≤ x := by
  intro x hx
  obtain ⟨q, hq, rfl⟩ := List.mem_map.1 hx
  exact div_nonneg (hv q hq).le hT.le

/-- A lower bound on every coordinate gives a lower bound on the
weighted sum. -/
theorem weighted_coord_lower {n : ℕ} (k : Fin n) (m T : ℚ) (hT : 0 < T) :
    ∀ (l : List (Vec n × ℚ)), (∀ q ∈ l, 0 ≤ q.2) → (∀ q ∈ l, m ≤ q.1 k) →
      m * (l.map fun p => p.2 / T).sum ≤ (l.map fun p => p.2 / T * p.1 k).sum := by
  intro l
  induction l with
  | nil => intro _ _; simp
  | cons p rest ih =>
    intro h0 hm
    simp only [List.map_cons, List.sum_cons, mul_add]
    have hw : 0 ≤ p.2 / T := div_nonneg (h0 p (List.mem_cons_self _ _)) hT.le
    have hmk : m ≤ p.1 k := hm p (List.mem_cons_self _ _)
    have h1 : m * (p.2 / T) ≤ p.2 / T * p.1 k := by nlinarith
    have h2 := ih (fun q hq => h0 q (List.mem_cons_of_mem p hq))
      (fun q hq => hm q (List.mem_cons_of_mem p hq))
    linarith

/-- An upper bound on every coordinate gives an upper bound on the
weighted sum. -/
theorem weighted_coord_upper {n : ℕ} (k : Fin n) (M T : ℚ) (hT : 0 < T) :
    ∀ (l : List (Vec n × ℚ)), (∀ q ∈ l, 0 ≤ q.2) → (∀ q ∈ l, q.1 k ≤ M) →
      (l.map fun p => p.2 / T * p.1 k).sum ≤ M * (l.map fun p => p.2 / T).sum := by
  intro l
  induction l with
  | nil => intro _ _; simp
  | cons p rest ih =>
    intro h0 hM
    simp only [List.map_cons, List.sum_cons, mul_add]
    have hw : 0 ≤ p.2 / T := div_nonneg (h0 p (List.mem_cons_self _ _)) hT.le
    have hMk : p.1 k ≤ M := hM p (List.mem_cons_self _ _)
    have h1 : p.2 / T * p.1 k ≤ M * (p.2 / T) := by nlinarith
    have h2 := ih (fun q hq => h0 q (List.mem_cons_of_mem p hq))
      (fun q hq => hM q (List.mem_cons_of_mem p hq))
    linarith

/-- A `min`-fold is below its initial value and every list entry. -/
theorem foldl_min_bounds (l : List ℚ) :
    ∀ a : ℚ, l.foldl min a ≤ a ∧ ∀ x ∈ l, l.foldl min a ≤ x := by
  induction l with
  | nil => intro a; exact ⟨le_refl a, by simp⟩
  | cons y ys ih =>
    intro a
    have h := ih (min a y)
    simp only [List.foldl_cons]
    refine ⟨h.1.trans (min_le_left a y), ?_⟩
    intro x hx
    rcases List.mem_cons.1 hx with rfl | hx'
    · exact h.1.trans (min_le_right a x)
    · exact h.2 x hx'

/-- A `max`-fold is above its initial value and every list entry. -/
theorem foldl_max_bounds (l : List ℚ) :
    ∀ a : ℚ, a ≤ l.foldl max a ∧ ∀ x ∈ l, x ≤ l.foldl max a := by
  induction l with
  | nil => intro a; exact ⟨le_refl a, by simp⟩
  | cons y ys ih =>
    intro a
    have h := ih (max a y)
    simp only [List.foldl_cons]
    refine ⟨(le_max_left a y).trans h.1, ?_⟩
    intro x hx
    rcases List.mem_cons.1 hx with rfl | hx'
    · exact (le_max_right a x).trans h.1
    · exact h.2 x hx'

/-- `coordMin` is below every surviving coordinate. -/
theorem coordMin_le {n : ℕ} (surv : List (Vec n × ℚ)) (k : Fin n) :
    ∀ p ∈ surv, coordMin surv k ≤ p.1 k := by
  intro p hp
  cases surv with
  | nil => simp at hp
  | cons q rest =>
    unfold coordMin
    rcases List.mem_cons.1 hp with rfl | hp'
    · exact (foldl_min_bounds _ (p.1 k)).1
    · exact (foldl_min_bounds _ (q.1 k)).2 (p.1 k) (List.mem_map_of_mem _ hp')

/-- `coordMax` is above every surviving coordinate. -/
theorem le_coordMax {n : ℕ} (surv : List (Vec n × ℚ)) (k : Fin n) :
    ∀ p ∈ surv, p.1 k ≤ coordMax surv k := by
  intro p hp
  cases surv with
  | nil => simp at hp
  | cons q rest =>
    unfold coordMax
    rcases List.mem_cons.1 hp with rfl | hp'
    · exact (foldl_max_bounds _ (p.1 k)).1
    · exact (foldl_max_bounds _ (q.1 k)).2 (p.1 k) (List.mem_map_of_mem _ hp')

/-- C5: whenever aggregation succeeds, the normalized weight vector over
the surviving embeddings is nonnegative and sums to 1, the returned
vector is exactly the weighted average of the surviving embeddings, and
each of its coordinates is bounded by the minimum and maximum surviving
coordinate on that axis (convex-hull membership, axis-wise). -/
theorem portfolio_vector_convex {n : ℕ}
    (emb : String → Option (Vec n)) (method : String) (raw : List AssetRow)
    (hok : (create_portfolio_embedding (some emb) method raw).isOk = true) :
    (∀ x ∈ normWeights (survivors emb (validAssets raw)), 0 ≤ x)
    ∧ (normWeights (survivors emb (validAssets raw))).sum = 1
    ∧ create_portfolio_embedding (some emb) method raw =
        AggOutcome.ok (portfolioVector (survivors emb (validAssets raw)))
          ⟨method ++ "_weighted", (survivors emb (validAssets raw)).length,
           totalValue (survivors emb (validAssets raw)), method, "weighted_average"⟩
    ∧ ∀ k, coordMin (survivors emb (validAssets raw)) k ≤
          portfolioVector (survivors emb (validAssets raw)) k
        ∧ portfolioVector (survivors emb (validAssets raw)) k ≤
          coordMax (survivors emb (validAssets raw)) k := by
  have h1 : raw ≠ [] := by
    intro h
    simp [create_portfolio_embedding, h, AggOutcome.isOk] at hok
  have h2 : validAssets raw ≠ [] := by
    intro h
    simp [create_portfolio_embedding, h1, h, AggOutcome.isOk] at hok
  have h3 : survivors emb (validAssets raw) ≠ [] := by
    intro h
    simp [create_portfolio_embedding, h1, h2, h, AggOutcome.isOk] at hok
  have hvp : ∀ p ∈ validAssets raw, 0 < p.2 := validAssetsAux_pos raw raw
  have hsp : ∀ q ∈ survivors emb (validAssets raw), 0 < q.2 :=
    survivors_pos emb (validAssets raw) hvp
  have hT : 0 < totalValue (survivors emb (validAssets raw)) :=
    totalValue_pos _ h3 hsp
  have hsum1 : (normWeights (survivors emb (validAssets raw))).sum = 1 :=
    normWeights_sum_one _ hT.ne'
  refine ⟨normWeights_nonneg _ hT hsp, hsum1, ?_, ?_⟩
  · simp [create_portfolio_embedding, h1, h2, h3]
  · intro k
    have hnn : ∀ q ∈ survivors emb (validAssets raw), 0 ≤ q.2 :=
      fun q hq => (hsp q hq).le
    have hw : ((survivors emb (validAssets raw)).map
        fun p => p.2 / totalValue (survivors emb (validAssets raw))).sum = 1 := hsum1
    have hpv : portfolioVector (survivors emb (validAssets raw)) k =
        ((survivors emb (validAssets raw)).map
          fun p => p.2 / totalValue (survivors emb (validAssets raw)) * p.1 k).sum := by
      unfold portfolioVector
      rw [hsum1, div_one]
    have hlow := weighted_coord_lower k (coordMin (survivors emb (validAssets raw)) k)
      (totalValue (survivors emb (validAssets raw))) hT (survivors emb (validAssets raw))
      hnn (coordMin_le _ k)
    have hupf := weighted_coord_upper k (coordMax (survivors emb (validAssets raw)) k)
      (totalValue (survivors emb (validAssets raw))) hT (survivors emb (validAssets raw))
      hnn (le_coordMax _ k)
    rw [hw, mul_one] at hlow hupf
    rw [hpv]
    exact ⟨hlow, hupf⟩

/-- Witness for C5: one surviving asset of value 25000 whose product
embedding is the constant-3 one-dimensional vector. -/
theorem portfolio_vector_convex_witness :
    (∀ x ∈ normWeights (survivors
        (fun pid => if pid = "12" then some (fun _ => (3 : ℚ)) else none : String → Option (Vec 1))
        (validAssets [⟨"12", "25000"⟩])), 0 ≤ x)
    ∧ (normWeights (survivors
        (fun pid => if pid = "12" then some (fun _ => (3 : ℚ)) else none : String → Option (Vec 1))
        (validAssets [⟨"12", "25000"⟩]))).sum = 1
    ∧ create_portfolio_embedding
        (some ((fun pid => if pid = "12" then some (fun _ => (3 : ℚ)) else none : String → Option (Vec 1))))
        "custom_financial" [⟨"12", "25000"⟩] =
        AggOutcome.ok (portfolioVector (survivors
          (fun pid => if pid = "12" then some (fun _ => (3 : ℚ)) else none : String → Option (Vec 1))
          (validAssets [⟨"12", "25000"⟩])))
          ⟨"custom_financial" ++ "_weighted",
           (survivors
             (fun pid => if pid = "12" then some (fun _ => (3 : ℚ)) else none : String → Option (Vec 1))
             (validAssets [⟨"12", "25000"⟩])).length,
           totalValue (survivors
             (fun pid => if pid = "12" then some (fun _ => (3 : ℚ)) else none : String → Option (Vec 1))
             (validAssets [⟨"12", "25000"⟩])),
           "custom_financial", "weighted_average"⟩
    ∧ ∀ k, coordMin (survivors
          (fun pid => if pid = "12" then some (fun _ => (3 : ℚ)) else none : String → Option (Vec 1))
          (validAssets [⟨"12", "25000"⟩])) k ≤
        portfolioVector (survivors
          (fun pid => if pid = "12" then some (fun _ => (3 : ℚ)) else none : String → Option (Vec 1))
          (validAssets [⟨"12", "25000"⟩])) k
      ∧ portfolioVector (survivors
          (fun pid => if pid = "12" then some (fun _ => (3 : ℚ)) else none : String → Option (Vec 1))
          (validAssets [⟨"12", "25000"⟩])) k ≤
        coordMax (survivors
          (fun pid => if pid = "12" then some (fun _ => (3 : ℚ)) else none : String → Option (Vec 1))
          (validAssets [⟨"12", "25000"⟩])) k :=
  portfolio_vector_convex
    (fun pid => if pid = "12" then some (fun _ => (3 : ℚ)) else none)
    "custom_financial" [⟨"12", "25000"⟩]
    (by
      have hd : digitsToNat "25000".data = 25000 := by decide
      have hp : parse_asset_value "25000" = 25000 := by
        simp +decide [parse_asset_value, cleanOf, lowerL, stripL, isNullMarker,
          containsB, isPrefB, pyFloat, parseUnsignedDec, parseExp, digitsToNat, isWS, hd]
      have hva : validAssets [⟨"12", "25000"⟩] = [("12", 25000)] := by
        norm_num [validAssets, validAssetsAux, hp]
      have hsv : survivors
          (fun pid => if pid = "12" then some (fun _ => (3 : ℚ)) else none : String → Option (Vec 1))
          [("12", (25000 : ℚ))] = [((fun _ => (3 : ℚ)), 25000)] := by
        norm_num [survivors, isZeroVec, Fin.forall_fin_one]
      simp [create_portfolio_embedding, hva, hsv, AggOutcome.isOk])
